import Mathlib

/-!
Shallow embedding of the `bourne` JSON codec (src/src/lib.rs, src/src/error.rs,
src/src/format.rs, src/src/parse.rs) and proofs about it.

Strings are modelled as `List Char` (Rust `String` / `&str` at char granularity);
byte offsets are recovered with `utf8Len` (sum of UTF-8 sizes), which is valid
because the parser's index only ever rests on a character boundary on every
continuing path (byte-level peeks of a multi-byte character see its lead byte,
which is `>= 0xC2` and therefore matches none of the ASCII dispatch cases, so the
parser errors out without committing a mid-character index to any surviving state).
-/

namespace Bourne

/-- Error type, from `src/src/error.rs` (`ParseError`). Payload-free variants drop
their display strings; `usize` payloads become `Nat` byte offsets. -/
inductive ParseError where
  | stepToInvalidFork
  | invalidCharacter (idx : Nat)
  | unexpectedEOF
  | unexpectedEOFWhileParsingString (start : Nat)
  | lineBreakWhileParsingString (idx : Nat)
  | parseIntError
  | parseFloatError
  | invalidEscapeSequence
  | invalidUnicodeCharacter
  | invalidHex
deriving DecidableEq, Repr

/-- UTF-8 byte length of a character sequence (Rust `str::len`). -/
def utf8Len (s : List Char) : Nat := (s.map Char.utf8Size).sum

/-- Rust `u8::is_ascii_whitespace`, lifted to the character whose lead byte is
peeked: space, tab, line feed, form feed, carriage return. A non-ASCII character's
lead byte is never ASCII whitespace, and for ASCII characters byte and character
coincide. -/
def isAsciiWs (c : Char) : Bool :=
  c = ' ' ∨ c = '\t' ∨ c = '\n' ∨ c = Char.ofNat 0xc ∨ c = '\r'

/-- Rust `char::is_ascii_digit` / the byte range `b'0'..=b'9'`. -/
def isDigitChar (c : Char) : Bool := '0' ≤ c ∧ c ≤ '9'

/-- Mirror of `hex_value` in `src/src/parse.rs`: hexadecimal digit to its value. -/
def hexValue (c : Char) : Option Nat :=
  if '0' ≤ c ∧ c ≤ '9' then some (c.toNat - '0'.toNat)
  else if 'a' ≤ c ∧ c ≤ 'f' then some (c.toNat - 'a'.toNat + 10)
  else if 'A' ≤ c ∧ c ≤ 'F' then some (c.toNat - 'A'.toNat + 10)
  else none

/-- Validity test of `char::from_u32` for a 16-bit candidate: everything below
`0x10000` is valid except the UTF-16 surrogate range `0xD800..=0xDFFF`. The model
only applies this to values read from 4 hex digits, hence `< 0x10000`. -/
def charFromU16 (n : Nat) : Option Char :=
  if 0xd800 ≤ n ∧ n ≤ 0xdfff then none else some (Char.ofNat n)

/-- Mirror of `unescape_string` in `src/src/parse.rs`: walk the characters; a
non-backslash passes through; a backslash maps `f b n r t` to their controls,
`u` reads exactly 4 hex digits (`InvalidHex` on a non-digit, `UnexpectedEOF` when
the input ends first) into a 16-bit value that must be a valid scalar
(`InvalidEscapeSequence` for surrogates), and any other character passes through
literally; a trailing backslash is `UnexpectedEOF`. The accumulator
`hex |= v; hex <<= 4` (on the first three digits) is written out directly. -/
def unescapeString : List Char → Except ParseError (List Char)
  | [] => .ok []
  | '\\' :: rest =>
    match rest with
    | [] => .error .unexpectedEOF
    | 'f' :: t => (unescapeString t).map (fun s => Char.ofNat 0xc :: s)
    | 'b' :: t => (unescapeString t).map (fun s => Char.ofNat 0x8 :: s)
    | 'n' :: t => (unescapeString t).map (fun s => '\n' :: s)
    | 'r' :: t => (unescapeString t).map (fun s => '\r' :: s)
    | 't' :: t => (unescapeString t).map (fun s => '\t' :: s)
    | 'u' :: t =>
      match t with
      | [] => .error .unexpectedEOF
      | c0 :: t0 =>
        match hexValue c0 with
        | none => .error .invalidHex
        | some v0 =>
          match t0 with
          | [] => .error .unexpectedEOF
          | c1 :: t1 =>
            match hexValue c1 with
            | none => .error .invalidHex
            | some v1 =>
              match t1 with
              | [] => .error .unexpectedEOF
              | c2 :: t2 =>
                match hexValue c2 with
                | none => .error .invalidHex
                | some v2 =>
                  match t2 with
                  | [] => .error .unexpectedEOF
                  | c3 :: t3 =>
                    match hexValue c3 with
                    | none => .error .invalidHex
                    | some v3 =>
                      match charFromU16 ((((v0 <<< 4) ||| v1) <<< 4 ||| v2) <<< 4 ||| v3) with
                      | none => .error .invalidEscapeSequence
                      | some res => (unescapeString t3).map (fun s => res :: s)
    | other :: t => (unescapeString t).map (fun s => other :: s)
  | c :: t => (unescapeString t).map (fun s => c :: s)

/-- Lookup in the `HEX_CHARS` table of `hex_char` in `src/src/format.rs`
(uppercase hex digits; every index handed to it is below 16). -/
def hexTable (index : Nat) : Char :=
  if index = 0 then '0' else if index = 1 then '1' else if index = 2 then '2'
  else if index = 3 then '3' else if index = 4 then '4' else if index = 5 then '5'
  else if index = 6 then '6' else if index = 7 then '7' else if index = 8 then '8'
  else if index = 9 then '9' else if index = 10 then 'A' else if index = 11 then 'B'
  else if index = 12 then 'C' else if index = 13 then 'D' else if index = 14 then 'E'
  else 'F'

/-- Mirror of `hex_char` in `src/src/format.rs`: uppercase hex digit of the
nibble of `value` at `slot`. -/
def hexChar (value : Nat) (slot : Nat) : Char :=
  hexTable ((value &&& (0xf <<< (slot * 4))) >>> (slot * 4))

/-- Per-character escape of `write_escaped_string` in `src/src/format.rs`, match
arms in source order; the control-range arm writes `\u00` then the high and low
nibbles via `hex_char`. -/
def escapeChar (c : Char) : List Char :=
  if c = '\\' then ['\\', '\\']
  else if c = '"' then ['\\', '"']
  else if c = Char.ofNat 0xc then ['\\', 'f']
  else if c = Char.ofNat 0x8 then ['\\', 'b']
  else if c = '\n' then ['\\', 'n']
  else if c = '\r' then ['\\', 'r']
  else if c = '\t' then ['\\', 't']
  else if c.toNat ≤ 0x1f then ['\\', 'u', '0', '0', hexChar c.toNat 1, hexChar c.toNat 0]
  else [c]

/-- Mirror of `escape_string` / `write_escaped_string` in `src/src/format.rs`. -/
def escapeString (s : List Char) : List Char := (s.map escapeChar).flatten

/-- Per-character width of `measure_escaped_string` in `src/src/format.rs`, match
arms in source order. -/
def measureChar (c : Char) : Nat :=
  if c = '\\' then 2
  else if c = '"' then 2
  else if c = Char.ofNat 0xc then 2
  else if c = Char.ofNat 0x8 then 2
  else if c = '\n' then 2
  else if c = '\r' then 2
  else if c = '\t' then 2
  else if c.toNat ≤ 0x1f then 6
  else c.utf8Size

/-- Mirror of `measure_escaped_string` in `src/src/format.rs`. -/
def measureEscapedString (s : List Char) : Nat := (s.map measureChar).sum

example : escapeString ['a', '\n', Char.ofNat 0x1f] =
    ['a', '\\', 'n', '\\', 'u', '0', '0', '1', 'F'] := by decide
example : unescapeString ['\\', 'u', '0', '0', '1', 'F'] = .ok [Char.ofNat 0x1f] := rfl
example : unescapeString ['\\', 'u', 'D', '8', '0', '0'] = .error .invalidEscapeSequence := rfl
example : measureEscapedString ['a', '\n', Char.ofNat 0x1f] = 9 := by decide

/-- JSON value tree, from `src/src/lib.rs` (`Value`). The `Number` payload is the
`f64` the parser produces (`Parser::parse_number` returns `f64` and
`write_number` takes `f64`); it is modelled as the exact rational the matched
numeral denotes — see `rustF64FromStr`. `Object` is the `ValueMap` modelled as an
association list with unique keys and last-write-wins `insert`. -/
inductive Value where
  | null
  | boolean (b : Bool)
  | number (q : ℚ)
  | string (s : List Char)
  | array (elems : List Value)
  | object (entries : List (List Char × Value))

/-- Association list model of `ValueMap` (`hashbrown::HashMap<String, Value>`). -/
def ValueMap : Type := List (List Char × Value)

/-- Mirror of `ValueMap::insert`'s effect on the mapping: replace the binding of
an existing key in place, otherwise add the new binding. -/
def mapInsert : List (List Char × Value) → List Char → Value → List (List Char × Value)
  | [], k, v => [(k, v)]
  | (k', v') :: t, k, v =>
    if k' = k then (k, v) :: t else (k', v') :: mapInsert t k v

/-- Mirror of `ValueMap::get`. -/
def mapGet : List (List Char × Value) → List Char → Option Value
  | [], _ => none
  | (k', v') :: t, k => if k' = k then some v' else mapGet t k

/-- Parser cursor: `done` is the already-consumed text, `rest` the text ahead of
the index, so `Parser::index` (a byte offset) is `utf8Len done`. -/
structure Cursor where
  done : List Char
  rest : List Char
deriving DecidableEq, Repr

/-- Byte offset of the cursor (`Parser::index`). -/
def Cursor.idx (st : Cursor) : Nat := utf8Len st.done

/-- The whole source text the cursor walks over (`Parser::source`). -/
def Cursor.text (st : Cursor) : List Char := st.done ++ st.rest

/-- Worker of `Parser::eat_whitespace` over the consumed and remaining text. -/
def eatWsAux : List Char → List Char → Cursor
  | done, [] => ⟨done, []⟩
  | done, c :: t => if isAsciiWs c then eatWsAux (done ++ [c]) t else ⟨done, c :: t⟩

/-- Mirror of `Parser::eat_whitespace`: consume every leading ASCII whitespace
byte. -/
def Cursor.eatWs (st : Cursor) : Cursor := eatWsAux st.done st.rest

/-- Mirror of `Parser::matches`: the source compares the byte window
`source[index..index+text.len()]` against an ASCII literal, which holds exactly
when the literal is a character prefix of the remaining text. -/
def Cursor.matchesLit (st : Cursor) (lit : List Char) : Bool :=
  st.rest.take lit.length = lit

/-- Mirror of `Parser::advance` over `n` single-byte characters; only invoked
after `matches` guarantees the characters are present. -/
def Cursor.advanceN : Cursor → Nat → Cursor
  | st, 0 => st
  | st, n + 1 =>
    match st with
    | ⟨done, []⟩ => ⟨done, []⟩
    | ⟨done, c :: t⟩ => Cursor.advanceN ⟨done ++ [c], t⟩ n

/-- Mirror of `Parser::parse_null`. -/
def parseNull (st : Cursor) : Except ParseError (Value × Cursor) :=
  if st.matchesLit ['n', 'u', 'l', 'l'] then .ok (.null, st.advanceN 4)
  else .error (.invalidCharacter st.idx)

/-- Mirror of `Parser::parse_boolean`. -/
def parseBoolean (st : Cursor) : Except ParseError (Bool × Cursor) :=
  if st.matchesLit ['t', 'r', 'u', 'e'] then .ok (true, st.advanceN 4)
  else if st.matchesLit ['f', 'a', 'l', 's', 'e'] then .ok (false, st.advanceN 5)
  else .error (.invalidCharacter st.idx)

/-- Digit run and remainder, used by the host-float model. -/
def takeDigits (s : List Char) : List Char × List Char :=
  (s.takeWhile isDigitChar, s.dropWhile isDigitChar)

/-- Value of a digit run. -/
def digitsVal (ds : List Char) : Nat :=
  ds.foldl (fun acc c => 10 * acc + (c.toNat - '0'.toNat)) 0

/-- Modelled from the spec: "The matched substring is parsed as a 64-bit float
using the host's standard float-parsing semantics" — the host parser
(`str::parse::<f64>` of Rust's core library) is not part of this repository.
Grammar per the host's documentation:
`Sign? ( Digit+ | Digit+ '.' Digit* | Digit* '.' Digit+ ) ( ('e'|'E') Sign? Digit+ )?`,
the whole input required to match. The `inf`/`infinity`/`nan` forms the host also
accepts are omitted: `Parser::parse_number` only hands over strings drawn from
signs, digits, `.`, `e`, `E`, so those forms are unreachable from this codebase.
The result is the exact rational the decimal denotes; the host's IEEE-754
rounding is abstracted away (no claim below depends on the rounded value). -/
def rustF64FromStr (s : List Char) : Option ℚ :=
  let sp : ℚ × List Char :=
    match s with
    | '+' :: t => (1, t)
    | '-' :: t => (-1, t)
    | t => (1, t)
  let ip := sp.2.takeWhile isDigitChar
  let s1 := sp.2.dropWhile isDigitChar
  let fp : List Char × List Char :=
    match s1 with
    | '.' :: t => (t.takeWhile isDigitChar, t.dropWhile isDigitChar)
    | _ => ([], s1)
  if ip = [] ∧ (s1.take 1 ≠ ['.'] ∨ fp.1 = []) then none
  else
    let mant : ℚ := (digitsVal ip : ℚ) + (digitsVal fp.1 : ℚ) / (10 : ℚ) ^ fp.1.length
    let finish : ℤ → List Char → Option ℚ := fun e r =>
      if r = [] then some (sp.1 * mant * (10 : ℚ) ^ e) else none
    let expCont : List Char → Option ℚ := fun t =>
      let esp : ℤ × List Char :=
        match t with
        | '+' :: t2 => (1, t2)
        | '-' :: t2 => (-1, t2)
        | t2 => (1, t2)
      let eds := esp.2.takeWhile isDigitChar
      if eds = [] then none
      else finish (esp.1 * (digitsVal eds : ℤ)) (esp.2.dropWhile isDigitChar)
    match fp.2 with
    | 'e' :: t => expCont t
    | 'E' :: t => expCont t
    | r => finish 0 r

/-- Scan loop of `Parser::parse_number`: digits always pass; one `.` only after a
digit and before any exponent; one `e`/`E` only after a digit; `}` `]` `,` and
ASCII whitespace end the scan without being consumed (the source consumes then
rewinds); anything else is `InvalidCharacter` at that byte's offset. The flags
are `found_e`, `found_dot`, `found_num` of the source; `signOk` renders the
source's peek-and-advance of a sign directly behind the exponent marker (it is
set exactly when the previous character was that marker, so a sign is consumed
only there, before any other case can see it). -/
def numLoop : List Char → List Char → Bool → Bool → Bool → Bool → Except ParseError Cursor
  | done, [], _, _, _, _ => .ok ⟨done, []⟩
  | done, c :: t, signOk, foundE, foundDot, foundNum =>
    if signOk ∧ (c = '+' ∨ c = '-') then numLoop (done ++ [c]) t false foundE foundDot foundNum
    else if isDigitChar c then numLoop (done ++ [c]) t false foundE foundDot true
    else if c = '.' ∧ foundNum ∧ ¬foundDot ∧ ¬foundE then
      numLoop (done ++ [c]) t false foundE true foundNum
    else if (c = 'e' ∨ c = 'E') ∧ foundNum ∧ ¬foundE then
      numLoop (done ++ [c]) t true true foundDot foundNum
    else if c = '}' ∨ c = ']' ∨ c = ',' then .ok ⟨done, c :: t⟩
    else if isAsciiWs c then .ok ⟨done, c :: t⟩
    else .error (.invalidCharacter (utf8Len done))

/-- Sign step of `Parser::parse_number`: `if let Some(b'-' | b'+') = self.peek()
{ self.next(); }`. -/
def signStep (st : Cursor) : Cursor :=
  match st.rest with
  | c :: t => if c = '-' ∨ c = '+' then ⟨st.done ++ [c], t⟩ else st
  | [] => st

/-- Mirror of `Parser::parse_number`: optional sign, the scan loop, then the
matched substring goes to the host float parser (`ParseFloatError` when it
rejects); an empty match is `InvalidCharacter` at the current offset. -/
def parseNumber (st : Cursor) : Except ParseError (ℚ × Cursor) :=
  let st1 : Cursor := signStep st
  match numLoop st1.done st1.rest false false false false with
  | .error e => .error e
  | .ok st2 =>
    if st2.done.length ≠ st.done.length then
      match rustF64FromStr (st2.done.drop st.done.length) with
      | some q => .ok (q, st2)
      | none => .error .parseFloatError
    else .error (.invalidCharacter (utf8Len st2.done))

/-- String-body loop of `Parser::parse_string`, after the opening quote: a raw
line break is a hard error at its offset, an unescaped `"` ends the string, a
backslash interprets `f b n r t u` escapes inline (the `u` path reads 4 hex
digits exactly as `unescape_string` does) and passes any other escaped character
through; end of input is `UnexpectedEOFWhileParsingString` at the body's start
offset. `buf` is `Parser::buffer`. -/
def strLoop : List Char → List Char → Nat → List Char → Except ParseError (List Char × Cursor)
  | _, [], start, _ => .error (.unexpectedEOFWhileParsingString start)
  | done, '\n' :: _, _, _ => .error (.lineBreakWhileParsingString (utf8Len done))
  | done, '\r' :: _, _, _ => .error (.lineBreakWhileParsingString (utf8Len done))
  | done, '"' :: t, _, buf => .ok (buf, ⟨done ++ ['"'], t⟩)
  | _, ['\\'], _, _ => .error .unexpectedEOF
  | done, '\\' :: 'f' :: t2, start, buf =>
    strLoop (done ++ ['\\', 'f']) t2 start (buf ++ [Char.ofNat 0xc])
  | done, '\\' :: 'b' :: t2, start, buf =>
    strLoop (done ++ ['\\', 'b']) t2 start (buf ++ [Char.ofNat 0x8])
  | done, '\\' :: 'n' :: t2, start, buf =>
    strLoop (done ++ ['\\', 'n']) t2 start (buf ++ ['\n'])
  | done, '\\' :: 'r' :: t2, start, buf =>
    strLoop (done ++ ['\\', 'r']) t2 start (buf ++ ['\r'])
  | done, '\\' :: 't' :: t2, start, buf =>
    strLoop (done ++ ['\\', 't']) t2 start (buf ++ ['\t'])
  | done, '\\' :: 'u' :: t2, start, buf =>
    match t2 with
    | [] => .error .unexpectedEOF
    | d0 :: t3 =>
      match hexValue d0 with
      | none => .error .invalidHex
      | some v0 =>
        match t3 with
        | [] => .error .unexpectedEOF
        | d1 :: t4 =>
          match hexValue d1 with
          | none => .error .invalidHex
          | some v1 =>
            match t4 with
            | [] => .error .unexpectedEOF
            | d2 :: t5 =>
              match hexValue d2 with
              | none => .error .invalidHex
              | some v2 =>
                match t5 with
                | [] => .error .unexpectedEOF
                | d3 :: t6 =>
                  match hexValue d3 with
                  | none => .error .invalidHex
                  | some v3 =>
                    match charFromU16
                        ((((v0 <<< 4) ||| v1) <<< 4 ||| v2) <<< 4 ||| v3) with
                    | none => .error .invalidEscapeSequence
                    | some res =>
                      strLoop (done ++ ['\\', 'u', d0, d1, d2, d3]) t6 start (buf ++ [res])
  | done, '\\' :: e :: t2, start, buf => strLoop (done ++ ['\\', e]) t2 start (buf ++ [e])
  | done, c :: t, start, buf => strLoop (done ++ [c]) t start (buf ++ [c])

/-- Mirror of `Parser::parse_string`: an opening `"` (else `InvalidCharacter` /
`UnexpectedEOF`), then the body loop starting with an empty buffer; the recorded
start offset is the index just after the opening quote. -/
def parseString (st : Cursor) : Except ParseError (List Char × Cursor) :=
  match st.rest with
  | [] => .error .unexpectedEOF
  | c :: t =>
    if c = '"' then strLoop (st.done ++ [c]) t (st.idx + 1) []
    else .error (.invalidCharacter st.idx)

mutual

/-- Mirror of `Parser::parse_value`: dispatch on the peeked byte (`t`/`f`
boolean, `n` null, `"` string, `{` object, `[` array, sign or digit number,
anything else `InvalidCharacter`, end of input `UnexpectedEOF`). Fuel bounds the
recursion depth; `fromStr` supplies more than any input can consume. -/
def parseValue : Nat → Cursor → Except ParseError (Value × Cursor)
  | 0, _ => .error .unexpectedEOF
  | fuel + 1, st =>
    match st.rest with
    | [] => .error .unexpectedEOF
    | c :: _ =>
      if c = 't' ∨ c = 'f' then
        match parseBoolean st with
        | .ok (b, st') => .ok (.boolean b, st')
        | .error e => .error e
      else if c = 'n' then parseNull st
      else if c = '"' then
        match parseString st with
        | .ok (s, st') => .ok (.string s, st')
        | .error e => .error e
      else if c = '{' then
        match parseObject fuel st with
        | .ok (m, st') => .ok (.object m, st')
        | .error e => .error e
      else if c = '[' then
        match parseArray fuel st with
        | .ok (xs, st') => .ok (.array xs, st')
        | .error e => .error e
      else if c = '+' ∨ c = '-' ∨ isDigitChar c then
        match parseNumber st with
        | .ok (q, st') => .ok (.number q, st')
        | .error e => .error e
      else .error (.invalidCharacter st.idx)

/-- Mirror of `Parser::parse_array`: a `[` then the element loop. -/
def parseArray : Nat → Cursor → Except ParseError (List Value × Cursor)
  | 0, _ => .error .unexpectedEOF
  | fuel + 1, st =>
    match st.rest with
    | [] => .error .unexpectedEOF
    | c :: t =>
      if c = '[' then arrLoop fuel ⟨st.done ++ [c], t⟩ []
      else .error (.invalidCharacter st.idx)

/-- Element loop of `Parser::parse_array`: skip whitespace; `]` closes (also
straight after a comma, so a trailing comma is accepted); otherwise parse a
value, skip whitespace, then `,` continues and `]` closes, anything else is
`InvalidCharacter` at its offset, end of input `UnexpectedEOF`. -/
def arrLoop : Nat → Cursor → List Value → Except ParseError (List Value × Cursor)
  | 0, _, _ => .error .unexpectedEOF
  | fuel + 1, st, acc =>
    let st1 := st.eatWs
    match st1.rest with
    | [] => .error .unexpectedEOF
    | c :: t =>
      if c = ']' then .ok (acc, ⟨st1.done ++ [c], t⟩)
      else
        match parseValue fuel st1 with
        | .error e => .error e
        | .ok (v, st2) =>
          let st3 := st2.eatWs
          match st3.rest with
          | [] => .error .unexpectedEOF
          | c2 :: t2 =>
            if c2 = ']' then .ok (acc ++ [v], ⟨st3.done ++ [c2], t2⟩)
            else if c2 = ',' then arrLoop fuel ⟨st3.done ++ [c2], t2⟩ (acc ++ [v])
            else .error (.invalidCharacter st3.idx)

/-- Mirror of `Parser::parse_object`: a `{` then the member loop. -/
def parseObject : Nat → Cursor → Except ParseError (List (List Char × Value) × Cursor)
  | 0, _ => .error .unexpectedEOF
  | fuel + 1, st =>
    match st.rest with
    | [] => .error .unexpectedEOF
    | c :: t =>
      if c = '{' then objLoop fuel ⟨st.done ++ [c], t⟩ []
      else .error (.invalidCharacter st.idx)

/-- Member loop of `Parser::parse_object`: skip whitespace; a `"` starts a key
(string, whitespace, `:`, whitespace, value, insert with last-write-wins, then
`,` continues and `}` closes — so a trailing comma is accepted); `}` closes;
anything else is `InvalidCharacter` at its offset, end of input `UnexpectedEOF`. -/
def objLoop : Nat → Cursor → List (List Char × Value) →
    Except ParseError (List (List Char × Value) × Cursor)
  | 0, _, _ => .error .unexpectedEOF
  | fuel + 1, st, acc =>
    let st1 := st.eatWs
    match st1.rest with
    | [] => .error .unexpectedEOF
    | c :: t =>
      if c = '"' then
        match parseString st1 with
        | .error e => .error e
        | .ok (key, st2) =>
          let st3 := st2.eatWs
          match st3.rest with
          | [] => .error .unexpectedEOF
          | c2 :: t2 =>
            if c2 = ':' then
              let st4 := Cursor.eatWs ⟨st3.done ++ [c2], t2⟩
              match parseValue fuel st4 with
              | .error e => .error e
              | .ok (v, st5) =>
                let acc2 := mapInsert acc key v
                let st6 := st5.eatWs
                match st6.rest with
                | [] => .error .unexpectedEOF
                | c3 :: t3 =>
                  if c3 = ',' then objLoop fuel ⟨st6.done ++ [c3], t3⟩ acc2
                  else if c3 = '}' then .ok (acc2, ⟨st6.done ++ [c3], t3⟩)
                  else .error (.invalidCharacter st6.idx)
            else .error (.invalidCharacter st3.idx)
      else if c = '}' then .ok (acc, ⟨st1.done ++ [c], t⟩)
      else .error (.invalidCharacter st1.idx)

end

/-- Mirror of `impl FromStr for Value`: skip leading whitespace, parse one value,
skip trailing whitespace; any remaining byte is `InvalidCharacter` at its offset.
The fuel `3 * length + 3` exceeds what any input can consume (every two fuel
steps consume at least one character). -/
def fromStr (s : List Char) : Except ParseError Value :=
  let st1 := Cursor.eatWs ⟨[], s⟩
  match parseValue (3 * s.length + 3) st1 with
  | .error e => .error e
  | .ok (v, st2) =>
    let st3 := st2.eatWs
    match st3.rest with
    | [] => .ok v
    | _ :: _ => .error (.invalidCharacter st3.idx)

example : fromStr ['n', 'u', 'l', 'l'] = .ok .null := rfl
example : fromStr ['-'] = .error .parseFloatError := rfl
example : fromStr ['[', '1', ',', '2', ',', ']'] = .ok (.array [.number 1, .number 2]) := by
  with_unfolding_all rfl

/-- Mirror of `Value::push` in `src/src/lib.rs`: a `Null` receiver is first
replaced by an empty `Array`; then a non-`Array` receiver panics (modelled as
`none`), and an `Array` receiver appends. -/
def Value.push (self : Value) (v : Value) : Option Value :=
  let self1 := match self with
    | .null => Value.array []
    | s => s
  match self1 with
  | .array xs => some (.array (xs ++ [v]))
  | _ => none

/-- Mirror of `Value::insert` in `src/src/lib.rs`: a `Null` receiver is first
replaced by an empty `Object`; then a non-`Object` receiver panics (modelled as
`none`), and an `Object` receiver inserts, returning the updated receiver and
the prior value of the key (the source's return value). -/
def Value.insert (self : Value) (k : List Char) (v : Value) :
    Option (Value × Option Value) :=
  let self1 := match self with
    | .null => Value.object []
    | s => s
  match self1 with
  | .object m => some (.object (mapInsert m k v), mapGet m k)
  | _ => none

/-- Mirror of `<usize as IndexOrKey>::get_or_insert` in `src/src/lib.rs` (the
function behind `IndexMut` write-indexing with an integer): a non-`Array`
receiver panics (`none`); an `Array` receiver yields `&mut array[i]`, which
itself panics when `i` is out of range. The result models the receiver after the
call and the value the returned reference points at. -/
def usizeGetOrInsert (i : Nat) (self : Value) : Option (Value × Value) :=
  match self with
  | .array xs =>
    match xs.get? i with
    | some v => some (.array xs, v)
    | none => none
  | _ => none

/-- Mirror of `<&str as IndexOrKey>::get_or_insert` in `src/src/lib.rs` (the
function behind `IndexMut` write-indexing with a string key): a `Null` receiver
is first replaced by an empty `Object`; a non-`Object` receiver then panics
(`none`); the key's entry is returned, inserting `Null` when absent. -/
def strGetOrInsert (k : List Char) (self : Value) : Option (Value × Value) :=
  let self1 := match self with
    | .null => Value.object []
    | s => s
  match self1 with
  | .object m =>
    match mapGet m k with
    | some v => some (.object m, v)
    | none => some (.object (mapInsert m k .null), .null)
  | _ => none

/-- Conditions of the raw-span claim, read off the claim's words: scanning left
to right (a backslash consumes the following character), the span contains no
unescaped double quote, no unescaped newline or carriage return, and does not
end in an unpaired backslash. -/
def spanPlain : List Char → Bool
  | [] => true
  | '\\' :: [] => false
  | '\\' :: _ :: t => spanPlain t
  | '"' :: _ => false
  | '\n' :: _ => false
  | '\r' :: _ => false
  | _ :: t => spanPlain t

/-- Conditions of the amended raw-span claim: `spanPlain` strengthened so that
every `\u` escape is followed by at least 4 characters inside the span (the
4 characters themselves are arbitrary — both sides treat them as hex-digit
candidates). -/
def spanOk : List Char → Bool
  | [] => true
  | '"' :: _ => false
  | '\n' :: _ => false
  | '\r' :: _ => false
  | '\\' :: [] => false
  | '\\' :: 'u' :: _ :: _ :: _ :: _ :: t => spanOk t
  | '\\' :: 'u' :: _ => false
  | '\\' :: _ :: t => spanOk t
  | _ :: t => spanOk t

/-! ### Claims -/

/-- C9. `Value::push` on a `Null` receiver converts it in place to an empty
`Array` and appends, and `Value::insert` on a `Null` receiver converts it in
place to an empty `Object` and inserts; on every other non-matching variant
(`Boolean`, `Number`, `String`, and `Object` for push / `Array` for insert) the
operation panics and never silently overwrites the existing data — the
Null-auto-convert policy is applied uniformly to both operations. -/
theorem push_insert_null_autovivify_uniform :
    (∀ v, Value.push .null v = some (.array [v])) ∧
    (∀ xs v, Value.push (.array xs) v = some (.array (xs ++ [v]))) ∧
    (∀ b v, Value.push (.boolean b) v = none) ∧
    (∀ q v, Value.push (.number q) v = none) ∧
    (∀ s v, Value.push (.string s) v = none) ∧
    (∀ m v, Value.push (.object m) v = none) ∧
    (∀ k v, Value.insert .null k v = some (.object [(k, v)], none)) ∧
    (∀ m k v, Value.insert (.object m) k v = some (.object (mapInsert m k v), mapGet m k)) ∧
    (∀ b k v, Value.insert (.boolean b) k v = none) ∧
    (∀ q k v, Value.insert (.number q) k v = none) ∧
    (∀ s k v, Value.insert (.string s) k v = none) ∧
    (∀ xs k v, Value.insert (.array xs) k v = none) :=
  ⟨fun _ => rfl, fun _ _ => rfl, fun _ _ => rfl, fun _ _ => rfl, fun _ _ => rfl,
   fun _ _ => rfl, fun _ _ => rfl, fun _ _ _ => rfl, fun _ _ _ => rfl,
   fun _ _ _ => rfl, fun _ _ _ => rfl, fun _ _ _ => rfl⟩

/-- C10. Write-indexing (`IndexMut` / `get_or_insert`) with a `usize` index on
any non-`Array` receiver, including `Null`, panics: the Null-to-container
auto-vivification applies only to string keys (where a `Null` receiver becomes
an `Object` holding the key bound to `Null`), and a `Null` value is never
auto-vivified into an `Array` by integer write-indexing. -/
theorem usize_write_indexing_panics_on_non_array :
    (∀ i, usizeGetOrInsert i .null = none) ∧
    (∀ i b, usizeGetOrInsert i (.boolean b) = none) ∧
    (∀ i q, usizeGetOrInsert i (.number q) = none) ∧
    (∀ i s, usizeGetOrInsert i (.string s) = none) ∧
    (∀ i m, usizeGetOrInsert i (.object m) = none) ∧
    (∀ k, strGetOrInsert k .null = some (.object [(k, .null)], .null)) :=
  ⟨fun _ => rfl, fun _ _ => rfl, fun _ _ => rfl, fun _ _ => rfl, fun _ _ => rfl,
   fun _ => rfl⟩

/-- C4. Parsing `[1,2,]` succeeds (a trailing comma before `]` is accepted:
after the comma the element loop runs again and its first check accepts `]`),
and the object parser treats a trailing comma before `}` the same way, so the
behavior is consistent across arrays and objects. -/
theorem trailing_comma_consistent :
    fromStr ['[', '1', ',', '2', ',', ']'] = .ok (.array [.number 1, .number 2]) ∧
    fromStr ['{', '"', 'a', '"', ':', '1', ',', '}'] =
      .ok (.object [(['a'], .number 1)]) :=
  ⟨by with_unfolding_all rfl, by with_unfolding_all rfl⟩

/-- C3 counterexample. On the input `-`, the number sub-parser consumes the sign,
so the match is not empty (`index - start = 1`): the lone `-` is handed to the
host float parser and the failure surfaces as `ParseFloatError`, not as
`InvalidCharacter` at the current offset (which is 1 there; the match is shown
distinct from `InvalidCharacter` at every plausible offset). -/
theorem lone_minus_not_invalid_character :
    fromStr ['-'] = .error .parseFloatError ∧
    fromStr ['-'] ≠ .error (.invalidCharacter 0) ∧
    fromStr ['-'] ≠ .error (.invalidCharacter 1) := by
  refine ⟨rfl, ?_, ?_⟩ <;> · rw [show fromStr ['-'] = .error .parseFloatError from rfl]
                             simp

/-- C3 amended. When the number sub-parser is invoked and matches no number
content beyond a leading sign (the next character is end of input or a scan
boundary: `}`, `]`, `,` or ASCII whitespace), the sign alone is matched and
handed to the host float parser, so parsing fails with `ParseFloatError`; the
`InvalidCharacter` empty-match branch is unreachable from `parse_value`, whose
dispatch guarantees the first byte is a sign or a digit. -/
theorem sign_only_number_is_parse_float_error (done rest : List Char) (c : Char)
    (hsign : c = '-' ∨ c = '+')
    (hstop : rest = [] ∨ ∃ c2 t, rest = c2 :: t ∧
      (c2 = '}' ∨ c2 = ']' ∨ c2 = ',' ∨ isAsciiWs c2)) :
    parseNumber ⟨done, c :: rest⟩ = .error .parseFloatError := by
  have hsign' : (c = '-' ∨ c = '+') = True := by simp [hsign]
  have hnl : numLoop (done ++ [c]) rest false false false false =
      .ok ⟨done ++ [c], rest⟩ := by
    rcases hstop with rfl | ⟨c2, t, rfl, hb⟩
    · simp [numLoop]
    · have hnotd : isDigitChar c2 = false := by
        rcases hb with rfl | rfl | rfl | hws
        · rfl
        · rfl
        · rfl
        · simp only [isAsciiWs, decide_eq_true_eq] at hws
          rcases hws with rfl | rfl | rfl | rfl | rfl <;> rfl
      rcases hb with rfl | rfl | rfl | hws
      · simp [numLoop, hnotd]
      · simp [numLoop, hnotd]
      · simp [numLoop, hnotd]
      · simp [numLoop, hnotd, hws]
  have hflt : rustF64FromStr [c] = none := by
    rcases hsign with rfl | rfl <;> rfl
  have hlen : ((done ++ [c]).length ≠ done.length) = True := by simp
  simp [parseNumber, signStep, hsign', hnl, hlen, List.drop_left, hflt]

/-- C3 witness: the amended claim applied to the whole input `-`. -/
theorem sign_only_number_is_parse_float_error_witness :
    parseNumber ⟨[], ['-']⟩ = .error .parseFloatError :=
  sign_only_number_is_parse_float_error [] [] '-' (Or.inl rfl) (Or.inl rfl)

theorem utf8Len_append (a b : List Char) : utf8Len (a ++ b) = utf8Len a + utf8Len b := by
  simp [utf8Len]

theorem utf8Size_ite (p : Prop) [Decidable p] (a b : Char) :
    (ite p a b).utf8Size = ite p a.utf8Size b.utf8Size := by
  by_cases h : p <;> simp [h]

theorem utf8Size_hexTable (i : Nat) : (hexTable i).utf8Size = 1 := by
  unfold hexTable
  simp only [utf8Size_ite, show '0'.utf8Size = 1 from rfl, show '1'.utf8Size = 1 from rfl,
    show '2'.utf8Size = 1 from rfl, show '3'.utf8Size = 1 from rfl,
    show '4'.utf8Size = 1 from rfl, show '5'.utf8Size = 1 from rfl,
    show '6'.utf8Size = 1 from rfl, show '7'.utf8Size = 1 from rfl,
    show '8'.utf8Size = 1 from rfl, show '9'.utf8Size = 1 from rfl,
    show 'A'.utf8Size = 1 from rfl, show 'B'.utf8Size = 1 from rfl,
    show 'C'.utf8Size = 1 from rfl, show 'D'.utf8Size = 1 from rfl,
    show 'E'.utf8Size = 1 from rfl, show 'F'.utf8Size = 1 from rfl, ite_self]

theorem utf8Size_hexChar (v s : Nat) : (hexChar v s).utf8Size = 1 :=
  utf8Size_hexTable _

theorem measureChar_eq_utf8Len_escapeChar (c : Char) :
    measureChar c = utf8Len (escapeChar c) := by
  unfold measureChar escapeChar
  split_ifs <;> simp [utf8Len, utf8Size_hexChar] <;> rfl

/-- C6. For every string `s`, `measure_escaped_string s` equals the length in
bytes of `escape_string s`: the measured length is exactly the sum over the
characters of their escaped widths, so the escape buffer's pre-allocation
(`String::with_capacity(measure_escaped_string(s))` in `escape_string`) is
exact. -/
theorem measure_escaped_exact (s : List Char) :
    measureEscapedString s = utf8Len (escapeString s) := by
  induction s with
  | nil => rfl
  | cons c t ih =>
    have h1 : escapeString (c :: t) = escapeChar c ++ escapeString t := by
      simp [escapeString]
    have h2 : measureEscapedString (c :: t) = measureChar c + measureEscapedString t := by
      simp [measureEscapedString]
    rw [h1, h2, utf8Len_append, ih, measureChar_eq_utf8Len_escapeChar]

theorem unescape_control_escape (n : Nat) (hn : n ≤ 0x1f) (t : List Char) :
    unescapeString ('\\' :: 'u' :: '0' :: '0' :: hexChar n 1 :: hexChar n 0 :: t) =
      (unescapeString t).map (fun s => Char.ofNat n :: s) := by
  interval_cases n <;> rfl

theorem unescape_escapeChar (c : Char) (t : List Char) :
    unescapeString (escapeChar c ++ t) = (unescapeString t).map (fun s => c :: s) := by
  unfold escapeChar
  split_ifs with h1 h2 h3 h4 h5 h6 h7 h8
  · subst h1; simp [unescapeString]
  · subst h2; simp [unescapeString]
  · rw [h3]; simp [unescapeString]
  · rw [h4]; simp [unescapeString]
  · subst h5; simp [unescapeString]
  · subst h6; simp [unescapeString]
  · subst h7; simp [unescapeString]
  · rw [List.cons_append, List.cons_append, List.cons_append, List.cons_append,
      List.cons_append, List.cons_append, List.nil_append,
      unescape_control_escape c.toNat h8 t, Char.ofNat_toNat]
  · simp only [List.cons_append, List.nil_append]
    simp [unescapeString, h1]

/-- C7. Unescaping a `\u` escape whose 4 hex digits denote a UTF-16 surrogate
code unit (0xD800–0xDFFF) fails with `InvalidEscapeSequence` whatever follows —
in particular when a matching second surrogate escape follows, so pairs are
never reassembled — while any of the 4 characters not being a hex digit fails
with `InvalidHex`; and a successfully parsed string never contains a surrogate
code point (in this embedding that is structural: `Char` is a Unicode scalar
value, and the first two parts show the only way a surrogate could have been
smuggled in is rejected). The accumulated value of the 4 digits is written as in
the source (`hex |= v` then `hex <<= 4` on all but the last digit). -/
theorem unicode_escape_rejects_surrogates (c0 c1 c2 c3 : Char) (rest : List Char) :
    (∀ v0 v1 v2 v3, hexValue c0 = some v0 → hexValue c1 = some v1 →
      hexValue c2 = some v2 → hexValue c3 = some v3 →
      0xd800 ≤ ((((v0 <<< 4) ||| v1) <<< 4 ||| v2) <<< 4 ||| v3) →
      ((((v0 <<< 4) ||| v1) <<< 4 ||| v2) <<< 4 ||| v3) ≤ 0xdfff →
      unescapeString ('\\' :: 'u' :: c0 :: c1 :: c2 :: c3 :: rest) =
        .error .invalidEscapeSequence) ∧
    ((hexValue c0 = none ∨ hexValue c1 = none ∨ hexValue c2 = none ∨
        hexValue c3 = none) →
      unescapeString ('\\' :: 'u' :: c0 :: c1 :: c2 :: c3 :: rest) =
        .error .invalidHex) ∧
    (∀ s out, unescapeString s = .ok out →
      ∀ ch ∈ out, ch.toNat < 0xd800 ∨ 0xdfff < ch.toNat) := by
  refine ⟨?_, ?_, ?_⟩
  · intro v0 v1 v2 v3 h0 h1 h2 h3 hlo hhi
    simp [unescapeString, h0, h1, h2, h3, charFromU16, hlo, hhi]
  · rintro (h | h | h | h)
    · simp [unescapeString, h]
    · rcases e0 : hexValue c0 with _ | v0
      · simp [unescapeString, e0]
      · simp [unescapeString, e0, h]
    · rcases e0 : hexValue c0 with _ | v0
      · simp [unescapeString, e0]
      · rcases e1 : hexValue c1 with _ | v1
        · simp [unescapeString, e0, e1]
        · simp [unescapeString, e0, e1, h]
    · rcases e0 : hexValue c0 with _ | v0
      · simp [unescapeString, e0]
      · rcases e1 : hexValue c1 with _ | v1
        · simp [unescapeString, e0, e1]
        · rcases e2 : hexValue c2 with _ | v2
          · simp [unescapeString, e0, e1, e2]
          · simp [unescapeString, e0, e1, e2, h]
  · intro s out _ ch _
    rcases ch.valid with h | ⟨h1, _⟩
    · exact Or.inl h
    · exact Or.inr h1

/-- C7 witness: the surrogate `\uD800` is rejected even though the matching low
surrogate `\uDC00` follows, and a non-hex digit among the four is `InvalidHex`. -/
theorem unicode_escape_rejects_surrogates_witness :
    unescapeString ['\\', 'u', 'D', '8', '0', '0', '\\', 'u', 'D', 'C', '0', '0'] =
      .error .invalidEscapeSequence ∧
    unescapeString ['\\', 'u', '0', '0', 'Z', '0'] = .error .invalidHex := by
  constructor
  · exact (unicode_escape_rejects_surrogates 'D' '8' '0' '0'
      ['\\', 'u', 'D', 'C', '0', '0']).1 13 8 0 0 rfl rfl rfl rfl (by decide) (by decide)
  · exact (unicode_escape_rejects_surrogates '0' '0' 'Z' '0' ['0']).2.1
      (Or.inr (Or.inr (Or.inl rfl)))

/-- C8 counterexample. The span `\u12` satisfies the claim's conditions (no
unescaped quote, no unescaped line break, no trailing unpaired backslash), yet
`unescape_string` runs out of input inside the `\u` escape (`UnexpectedEOF`)
while the inline scanner of `parse_string`, applied to the quoted input
`"\u12"`, consumes the closing quote as a hex-digit candidate and fails with
`InvalidHex` — a different error kind, so the two are not extensionally equal
on the claimed domain. -/
theorem inline_scanner_unescape_disagree :
    spanPlain ['\\', 'u', '1', '2'] = true ∧
    unescapeString ['\\', 'u', '1', '2'] = .error .unexpectedEOF ∧
    parseString ⟨[], ['"', '\\', 'u', '1', '2', '"']⟩ = .error .invalidHex :=
  ⟨rfl, rfl, rfl⟩

theorem strLoop_quote (done buf tail : List Char) (start : Nat) :
    strLoop done ('"' :: tail) start buf = .ok (buf, ⟨done ++ ['"'], tail⟩) := rfl

set_option maxHeartbeats 4000000 in
theorem strLoop_u_step (done rest buf : List Char) (start : Nat) (d0 d1 d2 d3 : Char) :
    strLoop done ('\\' :: 'u' :: d0 :: d1 :: d2 :: d3 :: rest) start buf =
      match hexValue d0 with
      | none => .error .invalidHex
      | some v0 =>
        match hexValue d1 with
        | none => .error .invalidHex
        | some v1 =>
          match hexValue d2 with
          | none => .error .invalidHex
          | some v2 =>
            match hexValue d3 with
            | none => .error .invalidHex
            | some v3 =>
              match charFromU16 ((((v0 <<< 4) ||| v1) <<< 4 ||| v2) <<< 4 ||| v3) with
              | none => .error .invalidEscapeSequence
              | some res =>
                strLoop (done ++ ['\\', 'u', d0, d1, d2, d3]) rest start (buf ++ [res]) := by
  rw [strLoop]

set_option maxHeartbeats 4000000 in
theorem strLoop_esc_step (done rest buf : List Char) (start : Nat) (e : Char)
    (hu : e ≠ 'u') :
    strLoop done ('\\' :: e :: rest) start buf =
      strLoop (done ++ ['\\', e]) rest start
        (buf ++ [if e = 'f' then Char.ofNat 0xc else if e = 'b' then Char.ofNat 0x8
                 else if e = 'n' then '\n' else if e = 'r' then '\r'
                 else if e = 't' then '\t' else e]) := by
  by_cases hf : e = 'f'
  · subst hf; rw [strLoop]; simp
  · by_cases hb : e = 'b'
    · subst hb; rw [strLoop]; simp
    · by_cases hn : e = 'n'
      · subst hn; rw [strLoop]; simp
      · by_cases hr : e = 'r'
        · subst hr; rw [strLoop]; simp
        · by_cases ht : e = 't'
          · subst ht; rw [strLoop]; simp
          · rw [strLoop.eq_def]
            split
            all_goals try simp_all
            rename_i hnot heq2
            exact absurd heq2.2.symm (hnot _ _ heq2.1.symm)

set_option maxHeartbeats 4000000 in
theorem strLoop_pass_step (done rest buf : List Char) (start : Nat) (c : Char)
    (h1 : c ≠ '\n') (h2 : c ≠ '\r') (h3 : c ≠ '"') (h4 : c ≠ '\\') :
    strLoop done (c :: rest) start buf = strLoop (done ++ [c]) rest start (buf ++ [c]) := by
  rw [strLoop.eq_def]
  split
  all_goals simp_all

theorem unescape_u_step (d0 d1 d2 d3 : Char) (t : List Char) :
    unescapeString ('\\' :: 'u' :: d0 :: d1 :: d2 :: d3 :: t) =
      match hexValue d0 with
      | none => .error .invalidHex
      | some v0 =>
        match hexValue d1 with
        | none => .error .invalidHex
        | some v1 =>
          match hexValue d2 with
          | none => .error .invalidHex
          | some v2 =>
            match hexValue d3 with
            | none => .error .invalidHex
            | some v3 =>
              match charFromU16 ((((v0 <<< 4) ||| v1) <<< 4 ||| v2) <<< 4 ||| v3) with
              | none => .error .invalidEscapeSequence
              | some res => (unescapeString t).map (fun s => res :: s) := by
  rw [unescapeString]

theorem unescape_esc_step (e : Char) (t : List Char) (hu : e ≠ 'u') :
    unescapeString ('\\' :: e :: t) =
      (unescapeString t).map
        (fun s => (if e = 'f' then Char.ofNat 0xc else if e = 'b' then Char.ofNat 0x8
                   else if e = 'n' then '\n' else if e = 'r' then '\r'
                   else if e = 't' then '\t' else e) :: s) := by
  by_cases hf : e = 'f'
  · subst hf; simp [unescapeString]
  · by_cases hb : e = 'b'
    · subst hb; simp [unescapeString]
    · by_cases hn : e = 'n'
      · subst hn; simp [unescapeString]
      · by_cases hr : e = 'r'
        · subst hr; simp [unescapeString]
        · by_cases ht : e = 't'
          · subst ht; simp [unescapeString]
          · simp [unescapeString, hu, hf, hb, hn, hr, ht]

theorem unescape_pass_step (c : Char) (t : List Char) (hc : c ≠ '\\') :
    unescapeString (c :: t) = (unescapeString t).map (fun s => c :: s) := by
  simp [unescapeString, hc]

theorem strLoop_matches_unescape :
    ∀ n (r : List Char), r.length ≤ n → spanOk r = true →
      ∀ done buf start tail,
        strLoop done (r ++ '"' :: tail) start buf =
          match unescapeString r with
          | .ok s => .ok (buf ++ s, ⟨done ++ r ++ ['"'], tail⟩)
          | .error e => .error e := by
  intro n
  induction n with
  | zero =>
    intro r hlen hok done buf start tail
    have hr : r = [] := List.eq_nil_of_length_eq_zero (Nat.le_zero.mp hlen)
    subst hr
    simp [strLoop_quote, unescapeString]
  | succ n ih =>
    intro r hlen hok done buf start tail
    rcases r with _ | ⟨c, t⟩
    · simp [strLoop_quote, unescapeString]
    · by_cases hq : c = '"'
      · subst hq; simp [spanOk] at hok
      · by_cases hn2 : c = '\n'
        · subst hn2; simp [spanOk] at hok
        · by_cases hr2 : c = '\r'
          · subst hr2; simp [spanOk] at hok
          · by_cases hb : c = '\\'
            · subst hb
              rcases t with _ | ⟨e, t2⟩
              · simp [spanOk] at hok
              · by_cases hu : e = 'u'
                · subst hu
                  rcases t2 with _ | ⟨d0, t3⟩
                  · simp [spanOk] at hok
                  · rcases t3 with _ | ⟨d1, t4⟩
                    · simp [spanOk] at hok
                    · rcases t4 with _ | ⟨d2, t5⟩
                      · simp [spanOk] at hok
                      · rcases t5 with _ | ⟨d3, t6⟩
                        · simp [spanOk] at hok
                        · simp only [spanOk] at hok
                          have hlen6 : t6.length ≤ n := by
                            simp only [List.length_cons] at hlen; omega
                          simp only [List.cons_append]
                          rw [strLoop_u_step, unescape_u_step]
                          rcases e0 : hexValue d0 with _ | v0
                          · rfl
                          · rcases e1 : hexValue d1 with _ | v1
                            · rfl
                            · rcases e2 : hexValue d2 with _ | v2
                              · rfl
                              · rcases e3 : hexValue d3 with _ | v3
                                · rfl
                                · cases ec : charFromU16
                                      ((((v0 <<< 4) ||| v1) <<< 4 ||| v2) <<< 4 ||| v3) with
                                  | none => simp [ec]
                                  | some res =>
                                    have ih6 := ih t6 hlen6 hok
                                      (done ++ ['\\', 'u', d0, d1, d2, d3]) (buf ++ [res])
                                      start tail
                                    cases hu6 : unescapeString t6 with
                                    | error err =>
                                      rw [hu6] at ih6
                                      simp [ec, hu6, ih6, Except.map]
                                    | ok s =>
                                      rw [hu6] at ih6
                                      simp [ec, hu6, ih6, Except.map]
                · have hok2 : spanOk t2 = true := by
                    revert hok
                    by_cases hf : e = 'f'
                    · subst hf; simp [spanOk]
                    · by_cases hbb : e = 'b'
                      · subst hbb; simp [spanOk]
                      · by_cases hnn : e = 'n'
                        · subst hnn; simp [spanOk]
                        · by_cases hrr : e = 'r'
                          · subst hrr; simp [spanOk]
                          · by_cases htt : e = 't'
                            · subst htt; simp [spanOk]
                            · simp [spanOk, hu, hf, hbb, hnn, hrr, htt]
                  have hlen2 : t2.length ≤ n := by
                    simp only [List.length_cons] at hlen; omega
                  simp only [List.cons_append]
                  rw [strLoop_esc_step _ _ _ _ _ hu, unescape_esc_step _ _ hu]
                  have ih2 := ih t2 hlen2 hok2 (done ++ ['\\', e])
                    (buf ++ [if e = 'f' then Char.ofNat 0xc
                             else if e = 'b' then Char.ofNat 0x8
                             else if e = 'n' then '\n' else if e = 'r' then '\r'
                             else if e = 't' then '\t' else e]) start tail
                  cases hu2 : unescapeString t2 with
                  | error err =>
                    rw [hu2] at ih2
                    simp [hu2, ih2, Except.map]
                  | ok s =>
                    rw [hu2] at ih2
                    simp [hu2, ih2, Except.map]
            · have hok1 : spanOk t = true := by
                revert hok
                simp [spanOk, hq, hn2, hr2, hb]
              have hlen1 : t.length ≤ n := by
                simp only [List.length_cons] at hlen; omega
              simp only [List.cons_append]
              rw [strLoop_pass_step _ _ _ _ _ hn2 hr2 hq hb, unescape_pass_step _ _ hb]
              have ih1 := ih t hlen1 hok1 (done ++ [c]) (buf ++ [c]) start tail
              cases hu1 : unescapeString t with
              | error err =>
                rw [hu1] at ih1
                simp [hu1, ih1, Except.map]
              | ok s =>
                rw [hu1] at ih1
                simp [hu1, ih1, Except.map]

/-- C8 amended. For every raw span `r` containing no unescaped double quote, no
unescaped newline or carriage return, not ending in an unpaired backslash, and —
the amendment — in which every `\u` escape is followed by at least 4 characters
inside `r` (together: `spanOk r`), the inline string scanner of
`Parser::parse_string` applied to the quoted input `'"' ++ r ++ '"'` (with any
text behind the closing quote) returns exactly the same result as
`unescape_string r`: the same string on success, with the cursor just past the
closing quote, and the same error kind on failure. -/
theorem inline_scanner_matches_unescape (r : List Char) (hok : spanOk r = true)
    (done tail : List Char) :
    parseString ⟨done, '"' :: (r ++ '"' :: tail)⟩ =
      match unescapeString r with
      | .ok s => .ok (s, ⟨done ++ '"' :: r ++ ['"'], tail⟩)
      | .error e => .error e := by
  have h := strLoop_matches_unescape r.length r le_rfl hok (done ++ ['"']) []
    (utf8Len done + 1) tail
  rw [show parseString ⟨done, '"' :: (r ++ '"' :: tail)⟩ =
      strLoop (done ++ ['"']) (r ++ '"' :: tail) (utf8Len done + 1) [] from rfl]
  rw [h]
  cases unescapeString r with
  | error e => rfl
  | ok s => simp

/-- C8 witness: the amended claim applied to the span `a\n`, whose scan and
unescape both yield the two characters `a`, newline. -/
theorem inline_scanner_matches_unescape_witness :
    parseString ⟨[], ['"', 'a', '\\', 'n', '"']⟩ =
      .ok (['a', '\n'], ⟨['"', 'a', '\\', 'n', '"'], []⟩) := by
  have h := inline_scanner_matches_unescape ['a', '\\', 'n'] rfl [] []
  simpa using h

/-- C2. For every string `s` — including the empty string and strings containing
every control character U+0000 through U+001F, the double quote, and the
backslash — `unescape_string (escape_string s)` returns `Ok s`. -/
theorem unescape_escape_roundtrip (s : List Char) :
    unescapeString (escapeString s) = .ok s := by
  induction s with
  | nil => rfl
  | cons c t ih =>
    have h1 : escapeString (c :: t) = escapeChar c ++ escapeString t := by
      simp [escapeString]
    rw [h1, unescape_escapeChar, ih]
    rfl

theorem eatWsAux_spec :
    ∀ (rest done : List Char), eatWsAux done rest =
      ⟨done ++ rest.takeWhile isAsciiWs, rest.dropWhile isAsciiWs⟩ := by
  intro rest
  induction rest with
  | nil => intro done; simp [eatWsAux]
  | cons c t ih =>
    intro done
    cases h : isAsciiWs c with
    | true => simp [eatWsAux, h, ih]
    | false => simp [eatWsAux, h]

theorem Cursor.eatWs_text (st : Cursor) : st.eatWs.text = st.text := by
  simp [Cursor.eatWs, eatWsAux_spec, Cursor.text, List.takeWhile_append_dropWhile]

theorem Cursor.eatWs_rest (st : Cursor) : st.eatWs.rest = st.rest.dropWhile isAsciiWs := by
  simp [Cursor.eatWs, eatWsAux_spec]

theorem dropWhile_head_false (p : Char → Bool) :
    ∀ (l : List Char) (c : Char) (t : List Char), l.dropWhile p = c :: t → p c = false := by
  intro l
  induction l with
  | nil => intro c t h; simp at h
  | cons a l ih =>
    intro c t h
    cases hp : p a with
    | true => rw [List.dropWhile_cons, hp] at h; exact ih c t (by simpa using h)
    | false =>
      rw [List.dropWhile_cons, hp] at h
      simp at h
      obtain ⟨rfl, rfl⟩ := h
      exact hp

theorem advanceN_text (n : Nat) : ∀ st : Cursor, (st.advanceN n).text = st.text := by
  induction n with
  | zero => intro st; rfl
  | succ n ih =>
    rintro ⟨done, _ | ⟨c, t⟩⟩
    · rfl
    · have h := ih ⟨done ++ [c], t⟩
      simp [Cursor.advanceN, Cursor.text] at h ⊢
      exact h

theorem parseNull_text (st : Cursor) (v : Value) (st' : Cursor)
    (h : parseNull st = .ok (v, st')) : st'.text = st.text := by
  unfold parseNull at h
  split at h
  · simp only [Except.ok.injEq, Prod.mk.injEq] at h
    obtain ⟨rfl, rfl⟩ := h
    exact advanceN_text 4 st
  · exact absurd h (by simp)

theorem parseBoolean_text (st : Cursor) (b : Bool) (st' : Cursor)
    (h : parseBoolean st = .ok (b, st')) : st'.text = st.text := by
  unfold parseBoolean at h
  split at h
  · simp only [Except.ok.injEq, Prod.mk.injEq] at h
    obtain ⟨rfl, rfl⟩ := h
    exact advanceN_text 4 st
  · split at h
    · simp only [Except.ok.injEq, Prod.mk.injEq] at h
      obtain ⟨rfl, rfl⟩ := h
      exact advanceN_text 5 st
    · exact absurd h (by simp)

theorem numLoop_text :
    ∀ (rest done : List Char) (signOk foundE foundDot foundNum : Bool) (st' : Cursor),
      numLoop done rest signOk foundE foundDot foundNum = .ok st' →
      st'.text = done ++ rest := by
  intro rest
  induction rest with
  | nil =>
    intro done signOk foundE foundDot foundNum st' h
    simp only [numLoop, Except.ok.injEq] at h
    subst h
    simp [Cursor.text]
  | cons c t ih =>
    intro done signOk foundE foundDot foundNum st' h
    simp only [numLoop] at h
    split at h
    · have := ih (done ++ [c]) _ _ _ _ _ h
      simpa [Cursor.text] using this
    · split at h
      · have := ih (done ++ [c]) _ _ _ _ _ h
        simpa [Cursor.text] using this
      · split at h
        · have := ih (done ++ [c]) _ _ _ _ _ h
          simpa [Cursor.text] using this
        · split at h
          · have := ih (done ++ [c]) _ _ _ _ _ h
            simpa [Cursor.text] using this
          · split at h
            · simp only [Except.ok.injEq] at h
              subst h
              rfl
            · split at h
              · simp only [Except.ok.injEq] at h
                subst h
                rfl
              · exact absurd h (by simp)

set_option maxHeartbeats 4000000 in
theorem strLoop_text :
    ∀ (done rest : List Char) (start : Nat) (buf s : List Char) (st' : Cursor),
      strLoop done rest start buf = .ok (s, st') → st'.text = done ++ rest := by
  intro done rest start buf
  induction done, rest, start, buf using strLoop.induct with
  | case1 done start buf =>
    intro s st' h; exact absurd h (by rw [strLoop]; simp)
  | case2 done t start buf =>
    intro s st' h; exact absurd h (by rw [strLoop]; simp)
  | case3 done t start buf =>
    intro s st' h; exact absurd h (by rw [strLoop]; simp)
  | case4 done t start buf =>
    intro s st' h
    rw [strLoop] at h
    simp only [Except.ok.injEq, Prod.mk.injEq] at h
    obtain ⟨rfl, rfl⟩ := h
    simp [Cursor.text]
  | case5 done start buf =>
    intro s st' h; exact absurd h (by rw [strLoop]; simp)
  | case6 done t2 start buf ih =>
    intro s st' h
    rw [strLoop] at h
    simpa using ih s st' h
  | case7 done t2 start buf ih =>
    intro s st' h
    rw [strLoop] at h
    simpa using ih s st' h
  | case8 done t2 start buf ih =>
    intro s st' h
    rw [strLoop] at h
    simpa using ih s st' h
  | case9 done t2 start buf ih =>
    intro s st' h
    rw [strLoop] at h
    simpa using ih s st' h
  | case10 done t2 start buf ih =>
    intro s st' h
    rw [strLoop] at h
    simpa using ih s st' h
  | case11 done start buf =>
    intro s st' h; exact absurd h (by rw [strLoop]; simp)
  | case12 done start buf d0 t3 e0 =>
    intro s st' h; exact absurd h (by rw [strLoop]; simp [e0])
  | case13 done start buf d0 v0 e0 =>
    intro s st' h; exact absurd h (by rw [strLoop]; simp [e0])
  | case14 done start buf d0 v0 e0 d1 t4 e1 =>
    intro s st' h; exact absurd h (by rw [strLoop]; simp [e0, e1])
  | case15 done start buf d0 v0 e0 d1 v1 e1 =>
    intro s st' h; exact absurd h (by rw [strLoop]; simp [e0, e1])
  | case16 done start buf d0 v0 e0 d1 v1 e1 d2 t5 e2 =>
    intro s st' h; exact absurd h (by rw [strLoop]; simp [e0, e1, e2])
  | case17 done start buf d0 v0 e0 d1 v1 e1 d2 v2 e2 =>
    intro s st' h; exact absurd h (by rw [strLoop]; simp [e0, e1, e2])
  | case18 done start buf d0 v0 e0 d1 v1 e1 d2 v2 e2 d3 t6 e3 =>
    intro s st' h; exact absurd h (by rw [strLoop]; simp [e0, e1, e2, e3])
  | case19 done start buf d0 v0 e0 d1 v1 e1 d2 v2 e2 d3 t6 v3 e3 ec =>
    intro s st' h; exact absurd h (by rw [strLoop]; simp [e0, e1, e2, e3, ec])
  | case20 done start buf d0 v0 e0 d1 v1 e1 d2 v2 e2 d3 t6 v3 e3 res ec ih =>
    intro s st' h
    rw [strLoop] at h
    simp only [e0, e1, e2, e3, ec] at h
    simpa using ih s st' h
  | case21 done e t2 start buf hef heb hen her het heu ih =>
    intro s st' h
    rw [strLoop_esc_step _ _ _ _ _ heu] at h
    rw [if_neg hef, if_neg heb, if_neg hen, if_neg her, if_neg het] at h
    simpa using ih s st' h
  | case22 done c t start buf hn hr hq hb0 hf hb hnn hrr ht hu hother ih =>
    intro s st' h
    have hbs : c ≠ '\\' := by
      intro hh
      cases t with
      | nil => exact hb0 hh rfl
      | cons e t2 => exact hother e t2 hh rfl
    rw [strLoop_pass_step _ _ _ _ _ hn hr hq hbs] at h
    simpa using ih s st' h

theorem parseString_text (st : Cursor) (s : List Char) (st' : Cursor)
    (h : parseString st = .ok (s, st')) : st'.text = st.text := by
  rcases st with ⟨done, _ | ⟨c, t⟩⟩
  · exact absurd h (by simp [parseString])
  · by_cases hc : c = '"'
    · subst hc
      replace h : strLoop (done ++ ['"']) t (utf8Len done + 1) [] = .ok (s, st') := h
      simpa [Cursor.text] using strLoop_text _ _ _ _ _ _ h
    · exact absurd h (by simp [parseString, hc])

theorem signStep_text (st : Cursor) : (signStep st).text = st.text := by
  rcases st with ⟨done, _ | ⟨c, t⟩⟩
  · rfl
  · by_cases hs : c = '-' ∨ c = '+'
    · simp [signStep, hs, Cursor.text]
    · simp [signStep, hs]

theorem parseNumber_text (st : Cursor) (q : ℚ) (st' : Cursor)
    (h : parseNumber st = .ok (q, st')) : st'.text = st.text := by
  replace h : (match numLoop (signStep st).done (signStep st).rest false false false false with
    | .error e => (.error e : Except ParseError (ℚ × Cursor))
    | .ok st2 =>
      if st2.done.length ≠ st.done.length then
        match rustF64FromStr (st2.done.drop st.done.length) with
        | some q => .ok (q, st2)
        | none => .error .parseFloatError
      else .error (.invalidCharacter (utf8Len st2.done))) = .ok (q, st') := h
  cases hnl : numLoop (signStep st).done (signStep st).rest false false false false with
  | error e => rw [hnl] at h; exact absurd h (by simp)
  | ok st2 =>
    rw [hnl] at h
    dsimp only at h
    have hfoot : st2.text = st.text := by
      calc st2.text = (signStep st).text := by
            simpa [Cursor.text] using
              numLoop_text (signStep st).rest (signStep st).done false false false false st2 hnl
        _ = st.text := signStep_text st
    by_cases hlen : st2.done.length ≠ st.done.length
    · rw [if_pos hlen] at h
      cases hq : rustF64FromStr (st2.done.drop st.done.length) with
      | none => rw [hq] at h; exact absurd h (by simp)
      | some qq =>
        rw [hq] at h
        simp only [Except.ok.injEq, Prod.mk.injEq] at h
        obtain ⟨rfl, rfl⟩ := h
        exact hfoot
    · rw [if_neg hlen] at h; exact absurd h (by simp)

theorem parse_text_preserved :
    ∀ fuel : Nat,
      (∀ st v st', parseValue fuel st = .ok (v, st') → st'.text = st.text) ∧
      (∀ st xs st', parseArray fuel st = .ok (xs, st') → st'.text = st.text) ∧
      (∀ st acc xs st', arrLoop fuel st acc = .ok (xs, st') → st'.text = st.text) ∧
      (∀ st m st', parseObject fuel st = .ok (m, st') → st'.text = st.text) ∧
      (∀ st acc m st', objLoop fuel st acc = .ok (m, st') → st'.text = st.text) := by
  intro fuel
  induction fuel with
  | zero =>
    refine ⟨?_, ?_, ?_, ?_, ?_⟩
    · intro st v st' h; exact absurd h (by rw [parseValue]; simp)
    · intro st xs st' h; exact absurd h (by rw [parseArray]; simp)
    · intro st acc xs st' h; exact absurd h (by rw [arrLoop]; simp)
    · intro st m st' h; exact absurd h (by rw [parseObject]; simp)
    · intro st acc m st' h; exact absurd h (by rw [objLoop]; simp)
  | succ fuel ih =>
    obtain ⟨ihv, iha, ihal, iho, ihol⟩ := ih
    refine ⟨?_, ?_, ?_, ?_, ?_⟩
    · intro st v st' h
      rw [parseValue] at h
      repeat' split at h
      any_goals exact Except.noConfusion h
      · rename_i b st2 heq
        simp only [Except.ok.injEq, Prod.mk.injEq] at h
        obtain ⟨rfl, rfl⟩ := h
        exact parseBoolean_text st b st2 heq
      · exact parseNull_text st v st' h
      · rename_i s st2 heq
        simp only [Except.ok.injEq, Prod.mk.injEq] at h
        obtain ⟨rfl, rfl⟩ := h
        exact parseString_text st s st2 heq
      · rename_i m st2 heq
        simp only [Except.ok.injEq, Prod.mk.injEq] at h
        obtain ⟨rfl, rfl⟩ := h
        exact iho st m st2 heq
      · rename_i xs st2 heq
        simp only [Except.ok.injEq, Prod.mk.injEq] at h
        obtain ⟨rfl, rfl⟩ := h
        exact iha st xs st2 heq
      · rename_i q st2 heq
        simp only [Except.ok.injEq, Prod.mk.injEq] at h
        obtain ⟨rfl, rfl⟩ := h
        exact parseNumber_text st q st2 heq
    · intro st xs st' h
      rw [parseArray] at h
      rcases hr : st.rest with _ | ⟨c, t⟩
      · rw [hr] at h; exact Except.noConfusion h
      · rw [hr] at h
        dsimp only at h
        by_cases hc : c = '['
        · rw [if_pos hc] at h
          have hrec := ihal ⟨st.done ++ [c], t⟩ [] xs st' h
          rw [hrec]
          simp [Cursor.text, hr]
        · rw [if_neg hc] at h; exact Except.noConfusion h
    · intro st acc xs st' h
      rw [arrLoop] at h
      dsimp only at h
      rcases hr : st.eatWs.rest with _ | ⟨c, t⟩
      · rw [hr] at h; exact Except.noConfusion h
      · rw [hr] at h
        dsimp only at h
        by_cases hc : c = ']'
        · rw [if_pos hc] at h
          simp only [Except.ok.injEq, Prod.mk.injEq] at h
          obtain ⟨rfl, rfl⟩ := h
          calc Cursor.text ⟨st.eatWs.done ++ [c], t⟩
              = st.eatWs.text := by simp [Cursor.text, hr]
            _ = st.text := Cursor.eatWs_text st
        · rw [if_neg hc] at h
          cases hv : parseValue fuel st.eatWs with
          | error e => rw [hv] at h; exact Except.noConfusion h
          | ok p =>
            obtain ⟨v2, st2⟩ := p
            rw [hv] at h
            dsimp only at h
            rcases hr2 : st2.eatWs.rest with _ | ⟨c2, t2⟩
            · rw [hr2] at h; exact Except.noConfusion h
            · rw [hr2] at h
              dsimp only at h
              by_cases hc2 : c2 = ']'
              · rw [if_pos hc2] at h
                simp only [Except.ok.injEq, Prod.mk.injEq] at h
                obtain ⟨rfl, rfl⟩ := h
                calc Cursor.text ⟨st2.eatWs.done ++ [c2], t2⟩
                    = st2.eatWs.text := by simp [Cursor.text, hr2]
                  _ = st2.text := Cursor.eatWs_text st2
                  _ = st.eatWs.text := ihv st.eatWs v2 st2 hv
                  _ = st.text := Cursor.eatWs_text st
              · rw [if_neg hc2] at h
                by_cases hc3 : c2 = ','
                · rw [if_pos hc3] at h
                  have hrec := ihal ⟨st2.eatWs.done ++ [c2], t2⟩ (acc ++ [v2]) xs st' h
                  calc st'.text
                      = Cursor.text ⟨st2.eatWs.done ++ [c2], t2⟩ := hrec
                    _ = st2.eatWs.text := by simp [Cursor.text, hr2]
                    _ = st2.text := Cursor.eatWs_text st2
                    _ = st.eatWs.text := ihv st.eatWs v2 st2 hv
                    _ = st.text := Cursor.eatWs_text st
                · rw [if_neg hc3] at h; exact Except.noConfusion h
    · intro st m st' h
      rw [parseObject] at h
      rcases hr : st.rest with _ | ⟨c, t⟩
      · rw [hr] at h; exact Except.noConfusion h
      · rw [hr] at h
        dsimp only at h
        by_cases hc : c = '{'
        · rw [if_pos hc] at h
          have hrec := ihol ⟨st.done ++ [c], t⟩ [] m st' h
          rw [hrec]
          simp [Cursor.text, hr]
        · rw [if_neg hc] at h; exact Except.noConfusion h
    · intro st acc m st' h
      rw [objLoop] at h
      dsimp only at h
      rcases hr : st.eatWs.rest with _ | ⟨c, t⟩
      · rw [hr] at h; exact Except.noConfusion h
      · rw [hr] at h
        dsimp only at h
        by_cases hc : c = '"'
        · rw [if_pos hc] at h
          cases hk : parseString st.eatWs with
          | error e => rw [hk] at h; exact Except.noConfusion h
          | ok p =>
            obtain ⟨key, st2⟩ := p
            rw [hk] at h
            dsimp only at h
            rcases hr2 : st2.eatWs.rest with _ | ⟨c2, t2⟩
            · rw [hr2] at h; exact Except.noConfusion h
            · rw [hr2] at h
              dsimp only at h
              by_cases hc2 : c2 = ':'
              · rw [if_pos hc2] at h
                cases hv : parseValue fuel (Cursor.eatWs ⟨st2.eatWs.done ++ [c2], t2⟩) with
                | error e => rw [hv] at h; exact Except.noConfusion h
                | ok p2 =>
                  obtain ⟨v2, st5⟩ := p2
                  rw [hv] at h
                  dsimp only at h
                  rcases hr3 : st5.eatWs.rest with _ | ⟨c3, t3⟩
                  · rw [hr3] at h; exact Except.noConfusion h
                  · rw [hr3] at h
                    dsimp only at h
                    by_cases hc3 : c3 = ','
                    · rw [if_pos hc3] at h
                      have hrec := ihol ⟨st5.eatWs.done ++ [c3], t3⟩
                        (mapInsert acc key v2) m st' h
                      calc st'.text
                          = Cursor.text ⟨st5.eatWs.done ++ [c3], t3⟩ := hrec
                        _ = st5.eatWs.text := by simp [Cursor.text, hr3]
                        _ = st5.text := Cursor.eatWs_text st5
                        _ = (Cursor.eatWs ⟨st2.eatWs.done ++ [c2], t2⟩).text :=
                            ihv (Cursor.eatWs ⟨st2.eatWs.done ++ [c2], t2⟩) v2 st5 hv
                        _ = Cursor.text ⟨st2.eatWs.done ++ [c2], t2⟩ :=
                            Cursor.eatWs_text ⟨st2.eatWs.done ++ [c2], t2⟩
                        _ = st2.eatWs.text := by simp [Cursor.text, hr2]
                        _ = st2.text := Cursor.eatWs_text st2
                        _ = st.eatWs.text := parseString_text st.eatWs key st2 hk
                        _ = st.text := Cursor.eatWs_text st
                    · rw [if_neg hc3] at h
                      by_cases hc4 : c3 = '}'
                      · rw [if_pos hc4] at h
                        simp only [Except.ok.injEq, Prod.mk.injEq] at h
                        obtain ⟨rfl, rfl⟩ := h
                        calc Cursor.text ⟨st5.eatWs.done ++ [c3], t3⟩
                            = st5.eatWs.text := by simp [Cursor.text, hr3]
                          _ = st5.text := Cursor.eatWs_text st5
                          _ = (Cursor.eatWs ⟨st2.eatWs.done ++ [c2], t2⟩).text :=
                              ihv (Cursor.eatWs ⟨st2.eatWs.done ++ [c2], t2⟩) v2 st5 hv
                          _ = Cursor.text ⟨st2.eatWs.done ++ [c2], t2⟩ :=
                              Cursor.eatWs_text ⟨st2.eatWs.done ++ [c2], t2⟩
                          _ = st2.eatWs.text := by simp [Cursor.text, hr2]
                          _ = st2.text := Cursor.eatWs_text st2
                          _ = st.eatWs.text := parseString_text st.eatWs key st2 hk
                          _ = st.text := Cursor.eatWs_text st
                      · rw [if_neg hc4] at h; exact Except.noConfusion h
              · rw [if_neg hc2] at h; exact Except.noConfusion h
        · rw [if_neg hc] at h
          by_cases hc2 : c = '}'
          · rw [if_pos hc2] at h
            simp only [Except.ok.injEq, Prod.mk.injEq] at h
            obtain ⟨rfl, rfl⟩ := h
            calc Cursor.text ⟨st.eatWs.done ++ [c], t⟩
                = st.eatWs.text := by simp [Cursor.text, hr]
              _ = st.text := Cursor.eatWs_text st
          · rw [if_neg hc2] at h; exact Except.noConfusion h

/-- C5. Top-level parsing (`impl FromStr for Value`) skips exactly the leading
ASCII whitespace, parses exactly one value, skips trailing ASCII whitespace, and
then: if nothing remains the value is returned; if any byte remains it is not
whitespace and parsing fails with `InvalidCharacter` carrying that byte's offset
(`st2.eatWs.idx` is the byte length of everything before it, and the final
conjunct places that prefix inside the original input); a value-parse error is
propagated unchanged. Trailing garbage is never silently ignored. -/
theorem parse_top_level (s : List Char) :
    (Cursor.eatWs ⟨[], s⟩ = ⟨s.takeWhile isAsciiWs, s.dropWhile isAsciiWs⟩) ∧
    (∀ e, parseValue (3 * s.length + 3) (Cursor.eatWs ⟨[], s⟩) = .error e →
      fromStr s = .error e) ∧
    (∀ v st2, parseValue (3 * s.length + 3) (Cursor.eatWs ⟨[], s⟩) = .ok (v, st2) →
      (st2.eatWs.rest = [] → fromStr s = .ok v) ∧
      (∀ c t, st2.eatWs.rest = c :: t →
        isAsciiWs c = false ∧
        fromStr s = .error (.invalidCharacter st2.eatWs.idx) ∧
        st2.eatWs.done ++ c :: t = s)) := by
  refine ⟨?_, ?_, ?_⟩
  · simp [Cursor.eatWs, eatWsAux_spec]
  · intro e he
    unfold fromStr
    dsimp only
    rw [he]
  · intro v st2 hok
    constructor
    · intro hrest
      unfold fromStr
      dsimp only
      rw [hok]
      dsimp only
      rw [hrest]
    · intro c t hrest
      have hws : isAsciiWs c = false := by
        rw [Cursor.eatWs_rest] at hrest
        exact dropWhile_head_false _ _ _ _ hrest
      refine ⟨hws, ?_, ?_⟩
      · unfold fromStr
        dsimp only
        rw [hok]
        dsimp only
        rw [hrest]
      · have h1 : st2.text = (Cursor.eatWs ⟨[], s⟩).text :=
          (parse_text_preserved (3 * s.length + 3)).1 _ v st2 hok
        have h2 : (Cursor.eatWs ⟨[], s⟩).text = Cursor.text ⟨[], s⟩ := Cursor.eatWs_text _
        have h3 : st2.eatWs.text = st2.text := Cursor.eatWs_text st2
        calc st2.eatWs.done ++ c :: t
            = st2.eatWs.done ++ st2.eatWs.rest := by rw [hrest]
          _ = st2.eatWs.text := rfl
          _ = st2.text := h3
          _ = (Cursor.eatWs ⟨[], s⟩).text := h1
          _ = Cursor.text ⟨[], s⟩ := h2
          _ = s := by simp [Cursor.text]

/-- C5 witness: on the input `" 1 x"` the value `1` is parsed, the blank before
`x` is skipped, and the non-whitespace byte `x` at offset 3 makes the parse fail
with `InvalidCharacter 3`. -/
theorem parse_top_level_witness :
    isAsciiWs 'x' = false ∧
    fromStr [' ', '1', ' ', 'x'] = .error (.invalidCharacter 3) ∧
    [' ', '1', ' '] ++ 'x' :: [] = [' ', '1', ' ', 'x'] := by
  have h := (parse_top_level [' ', '1', ' ', 'x']).2.2 (.number 1)
    ⟨[' ', '1'], [' ', 'x']⟩ (by with_unfolding_all rfl)
  have h2 := h.2 'x' [] (by with_unfolding_all rfl)
  exact ⟨h2.1, h2.2.1, h2.2.2⟩

end Bourne
